import Mathlib

set_option autoImplicit false

/-!
Verification of the replacement-transaction synthesis pipeline of
combine-transactions.py. The script fetches two unconfirmed wallet
transactions, checks replace-by-fee opt-in, consolidates their outputs,
builds a conflicting replacement spending the first input of each, funds
and signs it through the node, adjusts the change output so the fee and
feerate dominate the originals plus descendants, and broadcasts.

The embedding below translates each pure step of the script into a Lean
definition; the external node (RPC) is modelled by parameters carried in
an environment record, and the control flow of the script (its early
exits and assertions) by an `Except` valued pipeline function. Monetary
arithmetic, performed by Python on ints and floats, is modelled over ℚ.
-/

namespace CombineTx

/-- A destination script (scriptPubKey): an opaque byte sequence with
structural equality, modelled as a natural number. -/
abbrev Script := Nat

/-- An outpoint: the (transaction id, output index) pair referenced by a
transaction input. Transaction ids are modelled as naturals. -/
structure OutPoint where
  hash : Nat
  n : Nat
deriving DecidableEq

/-- A transaction input (CMutableTxIn): referenced outpoint plus the
sequence number that encodes replace-by-fee signaling. -/
structure TxIn where
  prevout : OutPoint
  nSequence : Nat
deriving DecidableEq

/-- A transaction output (CMutableTxOut): value in satoshis and the
destination script. -/
structure TxOut where
  nValue : Int
  scriptPubKey : Script
deriving DecidableEq

/-- A transaction (CMutableTransaction): ordered inputs and outputs. -/
structure Tx where
  vin : List TxIn
  vout : List TxOut
deriving DecidableEq

/-- Line 16: DUST = int(0.0001 * COIN) with COIN = 100000000. -/
def DUST : Int := 10000

/-- Lines 45-50: check_full_rbf_optin returns true when SOME input has a
sequence number strictly below 0xFFFFFFFF - 1. -/
def check_full_rbf_optin (tx : Tx) : Bool :=
  tx.vin.any fun vin => decide (vin.nSequence < 0xFFFFFFFF - 1)

/-- Lines 117-121: one step of the output-consolidation loop over an
insertion-ordered association list standing for the Python dict: add the
value to the existing entry for the same script, or insert a new entry at
the end. -/
def addOutput (m : List (Script × Int)) (o : TxOut) : List (Script × Int) :=
  if m.any fun p => decide (p.1 = o.scriptPubKey) then
    m.map fun p => if p.1 = o.scriptPubKey then (p.1, p.2 + o.nValue) else p
  else
    m ++ [(o.scriptPubKey, o.nValue)]

/-- Lines 105-121: the consolidation map built by folding the outputs of
transaction 1 then transaction 2. -/
def outputs (tx1 tx2 : Tx) : List (Script × Int) :=
  (tx1.vout ++ tx2.vout).foldl addOutput []

/-- Lines 107-116: the list of wallet-owned scripts. The ownership query
runs only when the script parses as an address (the ValueError branch of
the source skips unparseable scripts); both predicates are environment
parameters standing for CBitcoinAddress.from_scriptPubKey succeeding and
validateaddress reporting ismine. -/
def change_txout (parseable isMine : Script → Bool) (tx1 tx2 : Tx) : List Script :=
  (tx1.vout ++ tx2.vout).filterMap fun o =>
    if parseable o.scriptPubKey && isMine o.scriptPubKey then some o.scriptPubKey else none

/-- Lines 164-166: the explicit payee outputs of the replacement: one
output per consolidation-map entry whose script is not in change_txout,
in map order. -/
def payeeOutputs (outs : List (Script × Int)) (chg : List Script) : List TxOut :=
  (outs.filter fun p => !(chg.contains p.1)).map fun p =>
    { nValue := p.2, scriptPubKey := p.1 }

/-- Lines 149-157: the skeleton input list: first input of each original,
then the direct-conflict guard, which deletes the second input when its
previous txid is a merged descendant, else deletes the first when ITS
previous txid is one. Returns none when the source would raise IndexError
(fewer than two skeleton inputs at the vin[1] access). -/
def new_tx_vin (tx1 tx2 : Tx) (descKeys : List Nat) : Option (List TxIn) :=
  match tx1.vin.take 1 ++ tx2.vin.take 1 with
  | [i1, i2] =>
    if descKeys.contains i2.prevout.hash then some [i1]
    else if descKeys.contains i1.prevout.hash then some [i2]
    else some [i1, i2]
  | _ => none

/-- Lines 176-180: overwrite every input sequence number after funding:
0 when the -o flag was given, 0xFFFFFFFF - 1 otherwise. -/
def setSequences (optin : Bool) (vin : List TxIn) : List TxIn :=
  vin.map fun txin => { txin with nSequence := if optin then 0 else 0xFFFFFFFF - 1 }

/-- Python int() applied to a rational: truncation toward zero. -/
def pyInt (q : ℚ) : Int := if q < 0 then -⌊-q⌋ else ⌊q⌋

/-- Lines 236-240: the conflict assertions. False models an assertion
failure (or the IndexError of an out-of-range access). -/
def conflictOk (tx1 tx2 : Tx) (vin : List TxIn) : Bool :=
  match tx1.vin.head?, vin.get? 0, tx2.vin.head?, vin.get? 1 with
  | some a, some c, some b, some d =>
      decide (a.prevout = c.prevout) && decide (b.prevout = d.prevout)
  | _, _, _, _ => false

/-- The node-supplied quantities and flags consumed by the script after
the two transactions are fetched: confirmation counts, mempool fees, the
merged descendant map (txid, modified fee), and the result of the
fund-and-sign round trips. -/
structure Env where
  tx1 : Tx
  tx2 : Tx
  conf1 : Nat
  conf2 : Nat
  parseable : Script → Bool
  isMine : Script → Bool
  tx1_fees : Int
  tx2_fees : Int
  desc : List (Nat × Int)
  extraVin : List TxIn
  fundedFee : ℚ
  changepos : Int
  fundedChangeVal : ℚ
  signComplete : Bool
  minRelayFee : ℚ
  newTxSize : Nat
  tx1Size : Nat
  tx2Size : Nat
  optin : Bool
  dryrun : Bool

/-- Line 136: old_fees = tx1_fees + tx2_fees. -/
def old_fees (e : Env) : Int := e.tx1_fees + e.tx2_fees

/-- Lines 143-147: sum of the modified fees over the merged descendant
map. -/
def descendant_fees (e : Env) : Int := (e.desc.map Prod.snd).sum

/-- The fee target old_fees + descendant_fees of line 189, as a rational. -/
def feeTarget (e : Env) : ℚ := ((old_fees e : Int) : ℚ) + ((descendant_fees e : Int) : ℚ)

/-- Line 197: min_fee_rate = max(tx1_fees/size1, tx2_fees/size2). -/
def min_fee_rate (e : Env) : ℚ :=
  max ((e.tx1_fees : ℚ) / (e.tx1Size : ℚ)) ((e.tx2_fees : ℚ) / (e.tx2Size : ℚ))

/-- Lines 189-192: if the funded fee is below the target, decrease the
change value by the shortfall plus one and record the target as the new
fee. Returns (new_tx_fee, change value). -/
def adjustFeeTarget (fee chg target : ℚ) : ℚ × ℚ :=
  if fee < target then (target, chg - (target + 1 - fee)) else (fee, chg)

/-- Lines 197-201: if the feerate is below min_fee_rate, deduct the exact
deficit d from the change value and add it to the fee. -/
def adjustFeeRate (fee chg : ℚ) (size : Nat) (minRate : ℚ) : ℚ × ℚ :=
  if fee / (size : ℚ) < minRate then
    (fee + (minRate * (size : ℚ) - fee), chg - (minRate * (size : ℚ) - fee))
  else (fee, chg)

/-- Line 204: relay_bw_fee = int(new_tx_size/1000 * min_relay_fee). -/
def relay_bw_fee (size : Nat) (minRelay : ℚ) : Int :=
  pyInt ((size : ℚ) / 1000 * minRelay)

/-- Lines 189-206: the complete fee-adjustment computation, returning the
final (new_tx_fee, change value): the target step, then the feerate step,
then the relay-bandwidth deduction. -/
def feeAdjust (e : Env) : ℚ × ℚ :=
  ((adjustFeeRate (adjustFeeTarget e.fundedFee e.fundedChangeVal (feeTarget e)).1
      (adjustFeeTarget e.fundedFee e.fundedChangeVal (feeTarget e)).2
      e.newTxSize (min_fee_rate e)).1
    + ((relay_bw_fee e.newTxSize e.minRelayFee : Int) : ℚ),
   (adjustFeeRate (adjustFeeTarget e.fundedFee e.fundedChangeVal (feeTarget e)).1
      (adjustFeeTarget e.fundedFee e.fundedChangeVal (feeTarget e)).2
      e.newTxSize (min_fee_rate e)).2
    - ((relay_bw_fee e.newTxSize e.minRelayFee : Int) : ℚ))

/-- The terminal failures of the script: parser.exit calls, uncaught
IndexError, and failed assertions. -/
inductive Err where
  | AlreadyConfirmed
  | NotReplaceable
  | IndexErr
  | UnsupportedNoChangeCase
  | SigningIncomplete
  | InsufficientChangeForFee
  | ConflictInvariantViolated
deriving DecidableEq

/-- Successful completion: dry-run hex printing, or broadcast through
sendrawtransaction. -/
inductive Outcome where
  | dryRunHex
  | broadcast
deriving DecidableEq

/-- Lines 149-248: the part of the pipeline after the validation gates:
skeleton construction and guard, the changepos assertion, sequence
overwrite, first signing, fee adjustment, the change-value check, second
signing, the conflict assertions, then dry run or broadcast. -/
def pipelineRest (e : Env) : Except Err Outcome :=
  match new_tx_vin e.tx1 e.tx2 (e.desc.map Prod.fst) with
  | none => .error .IndexErr
  | some skel =>
    if e.changepos < 0 then .error .UnsupportedNoChangeCase
    else if !e.signComplete then .error .SigningIncomplete
    else if (feeAdjust e).2 ≤ 0 then .error .InsufficientChangeForFee
    else if !e.signComplete then .error .SigningIncomplete
    else if !(conflictOk e.tx1 e.tx2 (setSequences e.optin (skel ++ e.extraVin))) then
      .error .ConflictInvariantViolated
    else if e.dryrun then .ok .dryRunHex
    else .ok .broadcast

/-- Lines 78-248: the pipeline from the confirmation checks on: exit if
either transaction is confirmed, exit NotReplaceable unless both pass
check_full_rbf_optin, then continue with pipelineRest. -/
def pipeline (e : Env) : Except Err Outcome :=
  if 0 < e.conf1 then .error .AlreadyConfirmed
  else if 0 < e.conf2 then .error .AlreadyConfirmed
  else if !(check_full_rbf_optin e.tx1 && check_full_rbf_optin e.tx2) then .error .NotReplaceable
  else pipelineRest e


/-- Lookup in the insertion-ordered association list standing for the
Python dict: first entry whose key equals the script. -/
def lookupScript : List (Script × Int) → Script → Option Int
  | [], _ => none
  | (k, v) :: t, s => if s = k then some v else lookupScript t s

/-- Total value paid to script s by the outputs in l. -/
def scriptTotal (s : Script) (l : List TxOut) : Int :=
  ((l.filter fun o => decide (o.scriptPubKey = s)).map TxOut.nValue).sum

theorem addOutput_keys (m : List (Script × Int)) (o : TxOut) :
    (addOutput m o).map Prod.fst =
      if m.any fun p => decide (p.1 = o.scriptPubKey) then m.map Prod.fst
      else m.map Prod.fst ++ [o.scriptPubKey] := by
  unfold addOutput
  split
  · rw [List.map_map]
    apply List.map_congr_left
    intro p _
    by_cases h : p.1 = o.scriptPubKey <;> simp [h]
  · simp

theorem addOutput_keys_nodup (m : List (Script × Int)) (o : TxOut)
    (h : (m.map Prod.fst).Nodup) : ((addOutput m o).map Prod.fst).Nodup := by
  rw [addOutput_keys]
  split
  · exact h
  · next hany =>
    rw [List.nodup_append]
    refine ⟨h, List.nodup_singleton _, ?_⟩
    intro s hs hs1
    rcases List.mem_map.mp hs with ⟨p, hp, rfl⟩
    have h1 : p.1 = o.scriptPubKey := by simpa using hs1
    apply hany
    simp only [List.any_eq_true, decide_eq_true_eq]
    exact ⟨p, hp, h1⟩

theorem lookupScript_append_single (m : List (Script × Int)) (k : Script) (v : Int)
    (s : Script) :
    lookupScript (m ++ [(k, v)]) s =
      match lookupScript m s with
      | some b => some b
      | none => if s = k then some v else none := by
  induction m with
  | nil => simp [lookupScript]
  | cons p t ih =>
    rcases p with ⟨a, b⟩
    by_cases h : s = a <;> simp [lookupScript, h, ih]

theorem lookupScript_eq_none (m : List (Script × Int)) (s : Script)
    (h : (m.any fun p => decide (p.1 = s)) = false) : lookupScript m s = none := by
  induction m with
  | nil => rfl
  | cons p t ih =>
    rcases p with ⟨a, b⟩
    simp only [List.any_cons, Bool.or_eq_false_iff, decide_eq_false_iff_not] at h
    have hs : ¬ s = a := fun hsa => h.1 hsa.symm
    simp [lookupScript, hs, ih h.2]

theorem lookupScript_isSome (m : List (Script × Int)) (s : Script)
    (h : (m.any fun p => decide (p.1 = s)) = true) :
    ∃ b, lookupScript m s = some b := by
  induction m with
  | nil => simp at h
  | cons p t ih =>
    rcases p with ⟨a, b⟩
    by_cases hs : s = a
    · exact ⟨b, by simp [lookupScript, hs]⟩
    · have ht : (t.any fun p => decide (p.1 = s)) = true := by
        simp only [List.any_cons, Bool.or_eq_true] at h
        rcases h with h1 | h1
        · exact absurd (decide_eq_true_eq.mp h1).symm hs
        · exact h1
      rcases ih ht with ⟨c, hc⟩
      exact ⟨c, by simp [lookupScript, hs, hc]⟩

theorem lookupScript_cons (a : Script) (b : Int) (t : List (Script × Int))
    (s : Script) :
    lookupScript ((a, b) :: t) s = if s = a then some b else lookupScript t s := rfl

theorem lookupScript_map_update (m : List (Script × Int)) (k : Script) (v : Int)
    (s : Script) :
    lookupScript (m.map fun p => if p.1 = k then (p.1, p.2 + v) else p) s
      = (lookupScript m s).map fun b => if s = k then b + v else b := by
  induction m with
  | nil => simp [lookupScript]
  | cons p t ih =>
    rcases p with ⟨a, b⟩
    rw [List.map_cons]
    by_cases hak : a = k
    · have hhead : (if ((a, b) : Script × Int).1 = k then ((a, b).1, (a, b).2 + v) else (a, b))
          = (a, b + v) := if_pos hak
      rw [hhead, lookupScript_cons a (b + v), lookupScript_cons a b]
      by_cases hsa : s = a
      · have hsk : s = k := hsa.trans hak
        rw [if_pos hsa, if_pos hsa]
        simp [hsk]
      · rw [if_neg hsa, if_neg hsa, ih]
    · have hhead : (if ((a, b) : Script × Int).1 = k then ((a, b).1, (a, b).2 + v) else (a, b))
          = (a, b) := if_neg hak
      rw [hhead, lookupScript_cons a b, lookupScript_cons a b]
      by_cases hsa : s = a
      · have hsk : ¬ s = k := fun h => hak (hsa.symm.trans h)
        rw [if_pos hsa, if_pos hsa]
        simp [hsk]
      · rw [if_neg hsa, if_neg hsa, ih]

theorem lookupScript_addOutput (m : List (Script × Int)) (o : TxOut) (s : Script) :
    lookupScript (addOutput m o) s =
      if s = o.scriptPubKey then some ((lookupScript m s).getD 0 + o.nValue)
      else lookupScript m s := by
  unfold addOutput
  by_cases hany : (m.any fun p => decide (p.1 = o.scriptPubKey)) = true
  · rw [if_pos hany, lookupScript_map_update]
    by_cases hsk : s = o.scriptPubKey
    · subst hsk
      rcases lookupScript_isSome m o.scriptPubKey hany with ⟨b, hb⟩
      simp [hb]
    · simp [hsk]
  · have hany2 : (m.any fun p => decide (p.1 = o.scriptPubKey)) = false := by
      simp only [Bool.not_eq_true] at hany
      exact hany
    rw [if_neg hany, lookupScript_append_single]
    by_cases hsk : s = o.scriptPubKey
    · subst hsk
      have hnone : lookupScript m o.scriptPubKey = none :=
        lookupScript_eq_none m o.scriptPubKey hany2
      simp [hnone]
    · cases hm : lookupScript m s <;> simp [hm, hsk]

theorem scriptTotal_nil (s : Script) : scriptTotal s [] = 0 := rfl

theorem scriptTotal_cons (s : Script) (o : TxOut) (t : List TxOut) :
    scriptTotal s (o :: t) =
      (if o.scriptPubKey = s then o.nValue else 0) + scriptTotal s t := by
  by_cases h : o.scriptPubKey = s <;> simp [scriptTotal, List.filter_cons, h]

theorem scriptTotal_eq_zero (s : Script) (t : List TxOut)
    (h : (t.any fun o => decide (o.scriptPubKey = s)) = false) :
    scriptTotal s t = 0 := by
  unfold scriptTotal
  rw [List.filter_eq_nil_iff.mpr]
  · rfl
  · intro o ho
    simp only [List.any_eq_false] at h
    simpa using h o ho

theorem lookupScript_foldl (s : Script) (l : List TxOut) :
    ∀ m : List (Script × Int),
      lookupScript (l.foldl addOutput m) s =
        if l.any fun o => decide (o.scriptPubKey = s) then
          some ((lookupScript m s).getD 0 + scriptTotal s l)
        else lookupScript m s := by
  induction l with
  | nil => intro m; simp [scriptTotal_nil]
  | cons o t ih =>
    intro m
    rw [List.foldl_cons, ih (addOutput m o)]
    by_cases hk : o.scriptPubKey = s
    · have hs : s = o.scriptPubKey := hk.symm
      have hlk : lookupScript (addOutput m o) s
          = some ((lookupScript m s).getD 0 + o.nValue) := by
        rw [lookupScript_addOutput, if_pos hs]
      by_cases ht : (t.any fun o => decide (o.scriptPubKey = s)) = true
      · rw [if_pos ht, if_pos (by simp [hk]), hlk, scriptTotal_cons, if_pos hk]
        simp only [Option.getD_some]
        congr 1
        ring
      · have ht2 : (t.any fun o => decide (o.scriptPubKey = s)) = false := by
          simpa using ht
        rw [if_neg (by simp [ht2]), if_pos (by simp [hk]), hlk,
            scriptTotal_cons, if_pos hk, scriptTotal_eq_zero s t ht2]
        simp
    · have hs : ¬ s = o.scriptPubKey := fun h => hk h.symm
      have hlk : lookupScript (addOutput m o) s = lookupScript m s := by
        rw [lookupScript_addOutput, if_neg hs]
      rw [hlk]
      have hany : ((o :: t).any fun x => decide (x.scriptPubKey = s))
          = (t.any fun x => decide (x.scriptPubKey = s)) := by
        simp [hk]
      rw [hany, scriptTotal_cons, if_neg hk, zero_add]

theorem keys_foldl_nodup (l : List TxOut) :
    ∀ m : List (Script × Int), (m.map Prod.fst).Nodup →
      ((l.foldl addOutput m).map Prod.fst).Nodup := by
  induction l with
  | nil => intro m h; exact h
  | cons o t ih =>
    intro m h
    rw [List.foldl_cons]
    exact ih (addOutput m o) (addOutput_keys_nodup m o h)

theorem mem_keys_foldl (s : Script) (l : List TxOut) :
    ∀ m : List (Script × Int),
      s ∈ (l.foldl addOutput m).map Prod.fst →
        s ∈ m.map Prod.fst ∨ s ∈ l.map TxOut.scriptPubKey := by
  induction l with
  | nil => intro m h; exact Or.inl h
  | cons o t ih =>
    intro m h
    rw [List.foldl_cons] at h
    rcases ih (addOutput m o) h with h1 | h1
    · rw [addOutput_keys] at h1
      split at h1
      · exact Or.inl h1
      · rcases List.mem_append.mp h1 with h2 | h2
        · exact Or.inl h2
        · refine Or.inr ?_
          rw [List.map_cons]
          exact List.mem_cons.mpr (Or.inl (List.mem_singleton.mp h2))
    · refine Or.inr ?_
      rw [List.map_cons]
      exact List.mem_cons.mpr (Or.inr h1)

theorem head?_eq_some (l : List TxIn) (x : TxIn) (h : l.head? = some x) :
    ∃ t, l = x :: t := by
  cases l with
  | nil => simp at h
  | cons a t =>
    simp only [List.head?_cons, Option.some.injEq] at h
    exact ⟨t, by rw [h]⟩

theorem new_tx_vin_eq (tx1 tx2 : Tx) (descKeys : List Nat) (i1 i2 : TxIn)
    (t1 t2 : List TxIn) (hv1 : tx1.vin = i1 :: t1) (hv2 : tx2.vin = i2 :: t2) :
    new_tx_vin tx1 tx2 descKeys =
      if descKeys.contains i2.prevout.hash then some [i1]
      else if descKeys.contains i1.prevout.hash then some [i2]
      else some [i1, i2] := by
  unfold new_tx_vin
  rw [hv1, hv2]
  rfl

/-- Transaction used in concrete instances: one input spending outpoint
(1, 0), payments of 5000 to script 7 and 3000 to script 9. -/
def txA : Tx :=
  { vin := [{ prevout := { hash := 1, n := 0 }, nSequence := 0 }],
    vout := [{ nValue := 5000, scriptPubKey := 7 }, { nValue := 3000, scriptPubKey := 9 }] }

/-- Transaction used in concrete instances: one input spending outpoint
(2, 0), payment of 2000 to script 7. -/
def txB : Tx :=
  { vin := [{ prevout := { hash := 2, n := 0 }, nSequence := 0 }],
    vout := [{ nValue := 2000, scriptPubKey := 7 }] }

/-- Ownership environment for concrete instances: every script parses. -/
def allParseable : Script → Bool := fun _ => true

/-- Ownership environment for concrete instances: script 9 is wallet-owned. -/
def mineNine : Script → Bool := fun s => decide (s = 9)

/-- C4: after consolidating all outputs of transaction 1 followed by all of
transaction 2, the consolidation map holds exactly one entry per distinct
destination script (no duplicate keys), and that entry carries the sum of
the values of every output paying that script across both transactions; a
script paid by neither transaction has no entry. In particular two payments
v1 and v2 to the same script yield the single entry v1 + v2. -/
theorem consolidation_exactly_one_entry_with_sum (tx1 tx2 : Tx) :
    ((outputs tx1 tx2).map Prod.fst).Nodup ∧
    ∀ s : Script,
      lookupScript (outputs tx1 tx2) s =
        if ((tx1.vout ++ tx2.vout).any fun o => decide (o.scriptPubKey = s)) then
          some (scriptTotal s (tx1.vout ++ tx2.vout))
        else none := by
  constructor
  · exact keys_foldl_nodup (tx1.vout ++ tx2.vout) [] (by simp)
  · intro s
    rw [outputs, lookupScript_foldl]
    by_cases h : ((tx1.vout ++ tx2.vout).any fun o => decide (o.scriptPubKey = s)) = true
    · rw [if_pos h, if_pos h]
      simp [lookupScript]
    · rw [if_neg h, if_neg h]
      rfl

/-- C9: with a first input on each side, the direct-conflict guard is
defined (no index error) and removes at most one of the two skeleton
inputs: its two checks are mutually exclusive, so the result is [i1, i2],
[i1] or [i2]; in every case the list is nonempty and each remaining input
is the first input of one of the two originals. -/
theorem guard_removes_at_most_one (tx1 tx2 : Tx) (descKeys : List Nat) (i1 i2 : TxIn)
    (h1 : tx1.vin.head? = some i1) (h2 : tx2.vin.head? = some i2) :
    new_tx_vin tx1 tx2 descKeys = some [i1, i2] ∨
    new_tx_vin tx1 tx2 descKeys = some [i1] ∨
    new_tx_vin tx1 tx2 descKeys = some [i2] := by
  rcases head?_eq_some _ _ h1 with ⟨t1, hv1⟩
  rcases head?_eq_some _ _ h2 with ⟨t2, hv2⟩
  rw [new_tx_vin_eq tx1 tx2 descKeys i1 i2 t1 t2 hv1 hv2]
  by_cases hc2 : descKeys.contains i2.prevout.hash = true
  · rw [if_pos hc2]; right; left; rfl
  · rw [if_neg hc2]
    by_cases hc1 : descKeys.contains i1.prevout.hash = true
    · rw [if_pos hc1]; right; right; rfl
    · rw [if_neg hc1]; left; rfl

/-- C9 witness: instantiating the guard theorem at two concrete
transactions with an empty descendant set. -/
theorem guard_removes_at_most_one_witness :
    new_tx_vin txA txB [] = some [{ prevout := { hash := 1, n := 0 }, nSequence := 0 },
                                  { prevout := { hash := 2, n := 0 }, nSequence := 0 }] ∨
    new_tx_vin txA txB [] = some [{ prevout := { hash := 1, n := 0 }, nSequence := 0 }] ∨
    new_tx_vin txA txB [] = some [{ prevout := { hash := 2, n := 0 }, nSequence := 0 }] :=
  guard_removes_at_most_one txA txB []
    { prevout := { hash := 1, n := 0 }, nSequence := 0 }
    { prevout := { hash := 2, n := 0 }, nSequence := 0 } rfl rfl

/-- C5: for two transactions with first inputs i1 and i2 neither of whose
previous transaction ids lies in the merged descendant set, the skeleton is
exactly [i1, i2]; after funding appends any further inputs and the sequence
overwrite runs, the final conflict assertions hold: the first two inputs of
the replacement reference the first outpoints of transaction 1 and
transaction 2. -/
theorem skeleton_and_conflict_assertions (tx1 tx2 : Tx) (descKeys : List Nat)
    (extra : List TxIn) (optin : Bool) (i1 i2 : TxIn)
    (h1 : tx1.vin.head? = some i1) (h2 : tx2.vin.head? = some i2)
    (hk2 : descKeys.contains i2.prevout.hash = false)
    (hk1 : descKeys.contains i1.prevout.hash = false) :
    new_tx_vin tx1 tx2 descKeys = some [i1, i2] ∧
    conflictOk tx1 tx2 (setSequences optin ([i1, i2] ++ extra)) = true := by
  rcases head?_eq_some _ _ h1 with ⟨t1, hv1⟩
  rcases head?_eq_some _ _ h2 with ⟨t2, hv2⟩
  constructor
  · rw [new_tx_vin_eq tx1 tx2 descKeys i1 i2 t1 t2 hv1 hv2,
        if_neg (by intro h; rw [hk2] at h; exact Bool.false_ne_true h),
        if_neg (by intro h; rw [hk1] at h; exact Bool.false_ne_true h)]
  · unfold conflictOk setSequences
    rw [hv1, hv2]
    simp

/-- C5 witness: instantiating the skeleton-and-assertions theorem at two
concrete transactions with no descendants and no extra funded inputs. -/
theorem skeleton_and_conflict_assertions_witness :
    new_tx_vin txA txB [] = some [{ prevout := { hash := 1, n := 0 }, nSequence := 0 },
                                  { prevout := { hash := 2, n := 0 }, nSequence := 0 }] ∧
    conflictOk txA txB
      (setSequences false ([{ prevout := { hash := 1, n := 0 }, nSequence := 0 },
                            { prevout := { hash := 2, n := 0 }, nSequence := 0 }] ++ []))
      = true :=
  skeleton_and_conflict_assertions txA txB [] [] false
    { prevout := { hash := 1, n := 0 }, nSequence := 0 }
    { prevout := { hash := 2, n := 0 }, nSequence := 0 } rfl rfl rfl rfl

/-- C7: a destination script that the ownership query reports as
wallet-owned (the query runs exactly on the scripts that parse as an
address) never appears among the explicit payee outputs appended to the
replacement before funding. -/
theorem owned_script_not_in_payees (tx1 tx2 : Tx) (parseable isMine : Script → Bool)
    (s : Script) (hp : parseable s = true) (hm : isMine s = true) :
    s ∉ (payeeOutputs (outputs tx1 tx2)
          (change_txout parseable isMine tx1 tx2)).map TxOut.scriptPubKey := by
  intro hmem
  rcases List.mem_map.mp hmem with ⟨o, ho, hos⟩
  rcases List.mem_map.mp ho with ⟨p, hpmem, rfl⟩
  rcases List.mem_filter.mp hpmem with ⟨hpout, hkeep⟩
  have hps : p.1 = s := hos
  have hkey : p.1 ∈ (outputs tx1 tx2).map Prod.fst := List.mem_map_of_mem Prod.fst hpout
  have hocc : p.1 ∈ (tx1.vout ++ tx2.vout).map TxOut.scriptPubKey := by
    rcases mem_keys_foldl p.1 (tx1.vout ++ tx2.vout) [] hkey with h1 | h1
    · simp at h1
    · exact h1
  rcases List.mem_map.mp hocc with ⟨o2, ho2, ho2s⟩
  have hchg : s ∈ change_txout parseable isMine tx1 tx2 := by
    apply List.mem_filterMap.mpr
    refine ⟨o2, ho2, ?_⟩
    have hs2 : o2.scriptPubKey = s := ho2s.trans hps
    rw [hs2, hp, hm]
    rfl
  have hcont : (change_txout parseable isMine tx1 tx2).contains p.1 = true := by
    rw [hps]
    exact List.elem_iff.mpr hchg
  rw [hcont] at hkeep
  simp at hkeep

/-- C7 witness: instantiating the owned-script exclusion theorem at two
concrete transactions where script 9 is wallet-owned. -/
theorem owned_script_not_in_payees_witness :
    9 ∉ (payeeOutputs (outputs txA txB)
          (change_txout allParseable mineNine txA txB)).map TxOut.scriptPubKey :=
  owned_script_not_in_payees txA txB allParseable mineNine 9 rfl rfl

/-- C8: after the funding step every input sequence number is overwritten,
to 0 for all inputs when the opt-in flag was given and to 0xFFFFFFFF - 1
otherwise, and consequently (for the nonempty funded input list) the
replacement signals replace-by-fee opt-in exactly when the flag was
given. -/
theorem sequence_overwrite_signal (optin : Bool) (vin : List TxIn) (vout : List TxOut)
    (hne : vin ≠ []) :
    (setSequences optin vin).map TxIn.nSequence
      = List.replicate vin.length (if optin then 0 else 0xFFFFFFFF - 1) ∧
    check_full_rbf_optin { vin := setSequences optin vin, vout := vout } = optin := by
  constructor
  · clear hne
    induction vin with
    | nil => rfl
    | cons v t ih => simp only [setSequences, List.map_cons, List.map_map] at ih ⊢
                     rw [List.length_cons, List.replicate_succ]
                     simpa using ih
  · cases vin with
    | nil => exact absurd rfl hne
    | cons v t =>
      cases optin with
      | false =>
        apply Bool.eq_false_iff.mpr
        intro hcontra
        rw [check_full_rbf_optin, List.any_eq_true] at hcontra
        rcases hcontra with ⟨x, hx, hlt⟩
        rcases List.mem_map.mp hx with ⟨u, hu, rfl⟩
        simp at hlt
      | true =>
        rw [check_full_rbf_optin, List.any_eq_true]
        refine ⟨_, List.mem_map_of_mem _ (List.mem_cons_self v t), ?_⟩
        simp

/-- C8 witness: instantiating the sequence-overwrite theorem with the flag
set on a single-input list. -/
theorem sequence_overwrite_signal_witness :
    (setSequences true [{ prevout := { hash := 1, n := 0 }, nSequence := 5 }]).map
        TxIn.nSequence
      = List.replicate 1 (if true then 0 else 0xFFFFFFFF - 1) ∧
    check_full_rbf_optin
      { vin := setSequences true [{ prevout := { hash := 1, n := 0 }, nSequence := 5 }],
        vout := [] } = true :=
  sequence_overwrite_signal true [{ prevout := { hash := 1, n := 0 }, nSequence := 5 }] []
    (by decide)

theorem pipelineRest_ne_notReplaceable (e : Env) :
    pipelineRest e ≠ Except.error Err.NotReplaceable := by
  unfold pipelineRest
  cases new_tx_vin e.tx1 e.tx2 (e.desc.map Prod.fst) with
  | none => simp
  | some skel =>
    split
    · simp
    · split
      · simp
      · split
        · simp
        · split
          · simp
          · split
            · simp
            · split <;> simp

theorem check_full_rbf_optin_iff (tx : Tx) :
    check_full_rbf_optin tx = true ↔ ∃ i ∈ tx.vin, i.nSequence < 0xFFFFFFFF - 1 := by
  simp [check_full_rbf_optin, List.any_eq_true]

/-- Modelled from the claim wording, for comparison with the source
behaviour: EVERY input of the transaction signals opt-in. -/
def allInputsOptIn (tx : Tx) : Prop :=
  ∀ i ∈ tx.vin, i.nSequence < 0xFFFFFFFF - 1

/-- Transaction with one signaling and one non-signaling input. -/
def txMixedSeq : Tx :=
  { vin := [{ prevout := { hash := 1, n := 0 }, nSequence := 0 },
            { prevout := { hash := 2, n := 0 }, nSequence := 0xFFFFFFFF }],
    vout := [] }

/-- Transaction none of whose inputs signals opt-in. -/
def txNoOpt : Tx :=
  { vin := [{ prevout := { hash := 3, n := 0 }, nSequence := 0xFFFFFFFF }],
    vout := [] }

/-- A benign environment: two unconfirmed single-input transactions with
fees 500 over size 100 each, no descendants, funded fee 1000 with change
value 1 at position 0, zero relay feerate, signing complete, no dry run. -/
def baseEnv : Env :=
  { tx1 := { vin := [{ prevout := { hash := 1, n := 0 }, nSequence := 0 }], vout := [] },
    tx2 := { vin := [{ prevout := { hash := 2, n := 0 }, nSequence := 0 }], vout := [] },
    conf1 := 0, conf2 := 0,
    parseable := fun _ => false, isMine := fun _ => false,
    tx1_fees := 500, tx2_fees := 500, desc := [], extraVin := [],
    fundedFee := 1000, changepos := 0, fundedChangeVal := 1,
    signComplete := true, minRelayFee := 0, newTxSize := 200,
    tx1Size := 100, tx2Size := 100, optin := false, dryrun := false }

/-- Environment whose transactions mix signaling and non-signaling inputs;
changepos is negative so the run stops right after the opt-in gate. -/
def envMixedSeq : Env :=
  { baseEnv with tx1 := txMixedSeq, tx2 := txMixedSeq, changepos := -1 }

/-- Environment whose transactions have no signaling input at all. -/
def envNoOpt : Env :=
  { baseEnv with tx1 := txNoOpt, tx2 := txNoOpt }

/-- Environment for the fee-target step: funded fee 5 below the target
10 + 2, change value 100. -/
def envC2 : Env :=
  { baseEnv with fundedFee := 5, fundedChangeVal := 100,
                 tx1_fees := 5, tx2_fees := 5, desc := [(3, 2)] }

/-- Environment where the fee target 2000 wipes out the change value 1. -/
def envC6 : Env :=
  { baseEnv with fundedFee := 0, tx1_fees := 1000, tx2_fees := 1000 }

/-- C1 counterexample: a run whose transactions each contain an input NOT
signaling opt-in (sequence 0xFFFFFFFF) passes the opt-in gate anyway,
terminating later with the unrelated no-change failure instead of
NotReplaceable, because the source accepts a transaction as soon as SOME
input signals. -/
theorem optin_gate_counterexample :
    pipeline envMixedSeq = Except.error Err.UnsupportedNoChangeCase ∧
    ¬ allInputsOptIn envMixedSeq.tx1 := by
  constructor
  · rfl
  · unfold allInputsOptIn
    decide

/-- C1 (amended): with both transactions unconfirmed, the pipeline
terminates with NotReplaceable exactly when NOT every transaction has at
least one input with sequence number strictly below 0xFFFFFFFF - 1: the
gate requires SOME signaling input in each transaction, not all. -/
theorem optin_gate (e : Env) (h1 : e.conf1 = 0) (h2 : e.conf2 = 0) :
    pipeline e = Except.error Err.NotReplaceable ↔
      ¬ ((∃ i ∈ e.tx1.vin, i.nSequence < 0xFFFFFFFF - 1) ∧
         (∃ i ∈ e.tx2.vin, i.nSequence < 0xFFFFFFFF - 1)) := by
  unfold pipeline
  rw [h1, h2, if_neg (lt_irrefl 0), if_neg (lt_irrefl 0)]
  by_cases hb : (check_full_rbf_optin e.tx1 && check_full_rbf_optin e.tx2) = true
  · rw [if_neg (by rw [hb]; simp)]
    rw [Bool.and_eq_true] at hb
    constructor
    · intro h
      exact absurd h (pipelineRest_ne_notReplaceable e)
    · intro h
      exact absurd ⟨(check_full_rbf_optin_iff e.tx1).mp hb.1,
                    (check_full_rbf_optin_iff e.tx2).mp hb.2⟩ h
  · have hb2 : (check_full_rbf_optin e.tx1 && check_full_rbf_optin e.tx2) = false := by
      simp only [Bool.not_eq_true] at hb
      exact hb
    rw [if_pos (by rw [hb2]; rfl)]
    constructor
    · intro _ hab
      have hc1 : check_full_rbf_optin e.tx1 = true :=
        (check_full_rbf_optin_iff e.tx1).mpr hab.1
      have hc2 : check_full_rbf_optin e.tx2 = true :=
        (check_full_rbf_optin_iff e.tx2).mpr hab.2
      rw [hc1, hc2] at hb2
      simp at hb2
    · intro _
      rfl

/-- C1 witness: a run whose transactions have no signaling input stops
with NotReplaceable. -/
theorem optin_gate_witness :
    pipeline envNoOpt = Except.error Err.NotReplaceable :=
  (optin_gate envNoOpt rfl rfl).mpr (by decide)

/-- C2 counterexample: with funded fee 5, change value 100 and target 10,
the step decreases the change value by 6 (shortfall plus one) and records
fee 10, but the fee actually implied by the change decrease is
5 + 6 = 11: the recorded fee does not equal the fee implied by the change
decrease. -/
theorem fee_target_step_counterexample :
    (5 : ℚ) < 10 ∧
    (adjustFeeTarget 5 100 10).1 = 10 ∧
    100 - (adjustFeeTarget 5 100 10).2 = 6 ∧
    5 + (100 - (adjustFeeTarget 5 100 10).2) = 11 ∧
    (adjustFeeTarget 5 100 10).1 ≠ 5 + (100 - (adjustFeeTarget 5 100 10).2) := by
  norm_num [adjustFeeTarget]

/-- C2 (amended): whenever the funded fee is below old_fees +
descendant_fees, the adjustment decreases the change value by the
shortfall plus one unit and records exactly old_fees + descendant_fees as
the new fee; the fee actually implied by the change decrease is
old_fees + descendant_fees + 1, one unit more than the recorded fee. -/
theorem fee_target_step (e : Env) (h : e.fundedFee < feeTarget e) :
    (adjustFeeTarget e.fundedFee e.fundedChangeVal (feeTarget e)).1 = feeTarget e ∧
    e.fundedChangeVal - (adjustFeeTarget e.fundedFee e.fundedChangeVal (feeTarget e)).2
      = (feeTarget e - e.fundedFee) + 1 ∧
    e.fundedFee
      + (e.fundedChangeVal
          - (adjustFeeTarget e.fundedFee e.fundedChangeVal (feeTarget e)).2)
      = feeTarget e + 1 := by
  unfold adjustFeeTarget
  rw [if_pos h]
  refine ⟨rfl, by ring, by ring⟩

/-- C2 witness: the amended fee-target statement instantiated at a run
with funded fee 5 and target 12. -/
theorem fee_target_step_witness :
    (adjustFeeTarget envC2.fundedFee envC2.fundedChangeVal (feeTarget envC2)).1
      = feeTarget envC2 ∧
    envC2.fundedChangeVal
      - (adjustFeeTarget envC2.fundedFee envC2.fundedChangeVal (feeTarget envC2)).2
      = (feeTarget envC2 - envC2.fundedFee) + 1 ∧
    envC2.fundedFee
      + (envC2.fundedChangeVal
          - (adjustFeeTarget envC2.fundedFee envC2.fundedChangeVal (feeTarget envC2)).2)
      = feeTarget envC2 + 1 :=
  fee_target_step envC2
    (by norm_num [envC2, baseEnv, feeTarget, old_fees, descendant_fees])

theorem pyInt_nonneg (q : ℚ) (h : 0 ≤ q) : 0 ≤ pyInt q := by
  unfold pyInt
  rw [if_neg (not_lt.mpr h)]
  exact Int.floor_nonneg.mpr h

theorem adjustFeeTarget_fst_le (fee chg target : ℚ) :
    target ≤ (adjustFeeTarget fee chg target).1 := by
  unfold adjustFeeTarget
  split
  · exact le_refl target
  · next h => exact le_of_not_lt h

theorem adjustFeeRate_fst_le (fee chg : ℚ) (size : Nat) (minRate : ℚ)
    (hs : 0 < (size : ℚ)) : fee ≤ (adjustFeeRate fee chg size minRate).1 := by
  unfold adjustFeeRate
  split
  · next h =>
    rw [div_lt_iff₀ hs] at h
    show fee ≤ fee + (minRate * (size : ℚ) - fee)
    linarith
  · exact le_refl fee

theorem adjustFeeRate_rate_le (fee chg : ℚ) (size : Nat) (minRate : ℚ)
    (hs : 0 < (size : ℚ)) :
    minRate ≤ (adjustFeeRate fee chg size minRate).1 / (size : ℚ) := by
  unfold adjustFeeRate
  split
  · next h =>
    show minRate ≤ (fee + (minRate * (size : ℚ) - fee)) / (size : ℚ)
    have heq : fee + (minRate * (size : ℚ) - fee) = minRate * (size : ℚ) := by ring
    rw [heq, mul_div_assoc, div_self (ne_of_gt hs), mul_one]
  · next h =>
    show minRate ≤ fee / (size : ℚ)
    exact le_of_not_lt h

theorem feeAdjust_fst (e : Env) :
    (feeAdjust e).1 =
      (adjustFeeRate (adjustFeeTarget e.fundedFee e.fundedChangeVal (feeTarget e)).1
        (adjustFeeTarget e.fundedFee e.fundedChangeVal (feeTarget e)).2
        e.newTxSize (min_fee_rate e)).1
      + ((relay_bw_fee e.newTxSize e.minRelayFee : Int) : ℚ) := rfl

/-- C3: for positive serialized sizes and a nonnegative minimum relay
feerate, the fee adjustment yields a final recorded fee at least
old_fees + descendant_fees, and a final feerate (fee divided by the
serialized size) at least the maximum of the two original modified
feerates. -/
theorem final_fee_and_feerate_dominate (e : Env)
    (hs : 0 < e.newTxSize) (hr : 0 ≤ e.minRelayFee) :
    feeTarget e ≤ (feeAdjust e).1 ∧
    min_fee_rate e ≤ (feeAdjust e).1 / (e.newTxSize : ℚ) := by
  have hsq : (0 : ℚ) < (e.newTxSize : ℚ) := by exact_mod_cast hs
  have hbw : (0 : ℚ) ≤ ((relay_bw_fee e.newTxSize e.minRelayFee : Int) : ℚ) := by
    have hb : (0 : Int) ≤ relay_bw_fee e.newTxSize e.minRelayFee := by
      apply pyInt_nonneg
      apply mul_nonneg
      · positivity
      · exact hr
    exact_mod_cast hb
  have h1 := adjustFeeTarget_fst_le e.fundedFee e.fundedChangeVal (feeTarget e)
  have h2 := adjustFeeRate_fst_le
    (adjustFeeTarget e.fundedFee e.fundedChangeVal (feeTarget e)).1
    (adjustFeeTarget e.fundedFee e.fundedChangeVal (feeTarget e)).2
    e.newTxSize (min_fee_rate e) hsq
  have h3 := adjustFeeRate_rate_le
    (adjustFeeTarget e.fundedFee e.fundedChangeVal (feeTarget e)).1
    (adjustFeeTarget e.fundedFee e.fundedChangeVal (feeTarget e)).2
    e.newTxSize (min_fee_rate e) hsq
  constructor
  · rw [feeAdjust_fst]
    linarith
  · rw [feeAdjust_fst]
    refine le_trans h3 ?_
    apply (div_le_div_iff_of_pos_right hsq).mpr
    linarith

/-- C3 witness: the domination statement instantiated at the benign run. -/
theorem final_fee_and_feerate_dominate_witness :
    feeTarget baseEnv ≤ (feeAdjust baseEnv).1 ∧
    min_fee_rate baseEnv ≤ (feeAdjust baseEnv).1 / (baseEnv.newTxSize : ℚ) :=
  final_fee_and_feerate_dominate baseEnv (by norm_num [baseEnv])
    (by norm_num [baseEnv])

/-- C6: whenever the adjusted change value is nonpositive in a run that
passed the earlier gates, the pipeline terminates with
InsufficientChangeForFee and the broadcast outcome is never produced. -/
theorem insufficient_change_stops_broadcast (e : Env)
    (h1 : e.conf1 = 0) (h2 : e.conf2 = 0)
    (ho1 : check_full_rbf_optin e.tx1 = true)
    (ho2 : check_full_rbf_optin e.tx2 = true)
    (skel : List TxIn)
    (hb : new_tx_vin e.tx1 e.tx2 (e.desc.map Prod.fst) = some skel)
    (hp : 0 ≤ e.changepos) (hsg : e.signComplete = true)
    (hch : (feeAdjust e).2 ≤ 0) :
    pipeline e = Except.error Err.InsufficientChangeForFee ∧
    pipeline e ≠ Except.ok Outcome.broadcast := by
  have hmain : pipeline e = Except.error Err.InsufficientChangeForFee := by
    unfold pipeline
    rw [h1, h2, if_neg (lt_irrefl 0), if_neg (lt_irrefl 0),
        if_neg (by rw [ho1, ho2]; simp)]
    simp only [pipelineRest, hb, hsg]
    rw [if_neg (not_lt.mpr hp)]
    simp only [Bool.not_true]
    rw [if_neg Bool.false_ne_true, if_pos hch]
  exact ⟨hmain, by rw [hmain]; simp⟩

/-- C6 witness: the insufficient-change statement instantiated at a run
whose fee target 2000 wipes out the change value 1. -/
theorem insufficient_change_stops_broadcast_witness :
    pipeline envC6 = Except.error Err.InsufficientChangeForFee ∧
    pipeline envC6 ≠ Except.ok Outcome.broadcast :=
  insufficient_change_stops_broadcast envC6 rfl rfl rfl rfl
    [{ prevout := { hash := 1, n := 0 }, nSequence := 0 },
     { prevout := { hash := 2, n := 0 }, nSequence := 0 }] rfl (by decide) rfl
    (by norm_num [envC6, baseEnv, feeAdjust, adjustFeeTarget, adjustFeeRate,
      feeTarget, old_fees, descendant_fees, min_fee_rate, relay_bw_fee, pyInt,
      max_self])

/-- C10: the only change-value condition checked after the fee adjustment
is nonpositivity: every run with a positive final change value that passes
the other gates (no dry run) proceeds to re-signing and broadcast; no
dust-threshold comparison happens anywhere, the DUST constant is never
consulted. -/
theorem positive_change_always_broadcasts (e : Env)
    (h1 : e.conf1 = 0) (h2 : e.conf2 = 0)
    (ho1 : check_full_rbf_optin e.tx1 = true)
    (ho2 : check_full_rbf_optin e.tx2 = true)
    (skel : List TxIn)
    (hb : new_tx_vin e.tx1 e.tx2 (e.desc.map Prod.fst) = some skel)
    (hp : 0 ≤ e.changepos) (hsg : e.signComplete = true)
    (hch : 0 < (feeAdjust e).2)
    (hconf : conflictOk e.tx1 e.tx2 (setSequences e.optin (skel ++ e.extraVin)) = true)
    (hd : e.dryrun = false) :
    pipeline e = Except.ok Outcome.broadcast := by
  unfold pipeline
  rw [h1, h2, if_neg (lt_irrefl 0), if_neg (lt_irrefl 0),
      if_neg (by rw [ho1, ho2]; simp)]
  simp only [pipelineRest, hb, hsg, hconf, hd]
  rw [if_neg (not_lt.mpr hp)]
  rw [if_neg (not_le.mpr hch)]
  simp

/-- C10 witness: the benign run broadcasts although its final change value
1 lies far below the DUST constant 10000. -/
theorem positive_change_always_broadcasts_witness :
    pipeline baseEnv = Except.ok Outcome.broadcast ∧
    (feeAdjust baseEnv).2 < ((DUST : Int) : ℚ) := by
  constructor
  · exact positive_change_always_broadcasts baseEnv rfl rfl rfl rfl
      [{ prevout := { hash := 1, n := 0 }, nSequence := 0 },
       { prevout := { hash := 2, n := 0 }, nSequence := 0 }] rfl (by decide) rfl
      (by norm_num [baseEnv, feeAdjust, adjustFeeTarget, adjustFeeRate,
        feeTarget, old_fees, descendant_fees, min_fee_rate, relay_bw_fee, pyInt,
        max_self]) rfl rfl
  · norm_num [baseEnv, feeAdjust, adjustFeeTarget, adjustFeeRate,
      feeTarget, old_fees, descendant_fees, min_fee_rate, relay_bw_fee, pyInt,
      max_self, DUST]

end CombineTx
